import Mathlib

/-!
Shallow embedding of the rust-raytracer core (src/main.rs, src/color.rs).

Floating-point values (f32 and f64 alike) are modelled as rationals.  The
irrational primitives the code calls into — `sqrt`, `tan`, π — are threaded
through an explicit environment `FpEnv`; theorems that need a property of a
square root (e.g. that it really squares back) take it as a hypothesis.
NaN only matters for the `partial_cmp(..).unwrap()` inside `Scene::trace`;
there the comparison is modelled on `Option ℚ` (`none` = NaN), so the panic
branch is an explicit `Except.error`.
-/

/-- Environment of irrational floating-point primitives used by the code. -/
structure FpEnv where
  sqrtF : ℚ → ℚ
  tanF : ℚ → ℚ
  piF : ℚ


/-- Model of cgmath `Point3<f64>` and `Vector3<f64>` alike. -/
structure Vec3 where
  x : ℚ
  y : ℚ
  z : ℚ
deriving DecidableEq, Repr

def Vec3.add (a b : Vec3) : Vec3 := ⟨a.x + b.x, a.y + b.y, a.z + b.z⟩

def Vec3.sub (a b : Vec3) : Vec3 := ⟨a.x - b.x, a.y - b.y, a.z - b.z⟩

def Vec3.neg (a : Vec3) : Vec3 := ⟨-a.x, -a.y, -a.z⟩

def Vec3.smul (k : ℚ) (a : Vec3) : Vec3 := ⟨k * a.x, k * a.y, k * a.z⟩

def Vec3.dot (a b : Vec3) : ℚ := a.x * b.x + a.y * b.y + a.z * b.z

/-- Model of cgmath `magnitude2`: the squared length. -/
def magnitude2 (v : Vec3) : ℚ := Vec3.dot v v

/-- Model of cgmath `magnitude`: `sqrt` of the squared length. -/
def magnitude (env : FpEnv) (v : Vec3) : ℚ := env.sqrtF (magnitude2 v)

/-- Model of cgmath `normalize`: the vector scaled by the inverse magnitude. -/
def vnormalize (env : FpEnv) (v : Vec3) : Vec3 :=
  Vec3.smul (1 / magnitude env v) v

/-- Model of `Color` (src/color.rs): three f32 channels. -/
structure Color where
  red : ℚ
  green : ℚ
  blue : ℚ
deriving DecidableEq, Repr

/-- Per-channel clip used by `Color::clamp`. -/
def clampQ (v : ℚ) : ℚ := if v > 1 then 1 else if v < 0 then 0 else v

/-- Model of `Color::clamp` (the in-place mutation, as a pure function). -/
def Color.clamp (c : Color) : Color :=
  ⟨clampQ c.red, clampQ c.green, clampQ c.blue⟩

/-- Model of Rust `as u8` applied to a (non-NaN) float: saturating
truncation toward zero. -/
def toU8 (q : ℚ) : ℕ :=
  if q ≤ 0 then 0 else if 255 ≤ q then 255 else (⌊q⌋).toNat

/-- Model of `Color::to_rgba`.  `none` models an assertion failure.  The
three asserts are transcribed exactly as written in the source, including
the second and third testing `self.red >= 0.0` instead of green/blue. -/
def Color.to_rgba (c : Color) : Option (ℕ × ℕ × ℕ × ℕ) :=
  if c.red ≤ 1 ∧ 0 ≤ c.red then
    if c.green ≤ 1 ∧ 0 ≤ c.red then
      if c.blue ≤ 1 ∧ 0 ≤ c.red then
        some (toU8 (c.red * 255), toU8 (c.green * 255), toU8 (c.blue * 255), 1)
      else none
    else none
  else none

/-- Color + Color (component-wise). -/
def Color.addC (a b : Color) : Color :=
  ⟨a.red + b.red, a.green + b.green, a.blue + b.blue⟩

/-- Color + f32 scalar (added to each channel). -/
def Color.addS (a : Color) (k : ℚ) : Color :=
  ⟨a.red + k, a.green + k, a.blue + k⟩

/-- Color * f32 scalar. -/
def Color.mulS (a : Color) (k : ℚ) : Color :=
  ⟨a.red * k, a.green * k, a.blue * k⟩

/-- Color * Color (component-wise). -/
def Color.mulC (a b : Color) : Color :=
  ⟨a.red * b.red, a.green * b.green, a.blue * b.blue⟩

/-- Model of `Ray`. -/
structure Ray where
  origin : Vec3
  direction : Vec3
deriving DecidableEq, Repr

/-- Model of `Sphere`. -/
structure Sphere where
  center : Vec3
  radius : ℚ
  color : Color
  albedo : ℚ
  ks : ℚ
  kd : ℚ
deriving DecidableEq, Repr

/-- Model of `Sphere::intersect` (Intersectable impl, src/main.rs). -/
def Sphere.intersect (env : FpEnv) (s : Sphere) (ray : Ray) : Option ℚ :=
  let hypo := Vec3.sub s.center ray.origin
  let adj := Vec3.dot hypo ray.direction
  let d := Vec3.dot hypo hypo - adj * adj
  let radius_sq := s.radius * s.radius
  if d > radius_sq then none
  else
    let thickness := env.sqrtF (radius_sq - d)
    let t0 := adj - thickness
    let t1 := adj + thickness
    if t0 < 0 ∧ t1 < 0 then none
    else some (if t0 < t1 then t0 else t1)

/-- Model of `Sphere::surface_normal`. -/
def Sphere.surface_normal (env : FpEnv) (s : Sphere) (hit_point : Vec3) : Vec3 :=
  vnormalize env (Vec3.sub hit_point s.center)

/-- Model of the `Light` enum. -/
inductive Light where
  | DirectionalLight (direction : Vec3) (color : Color) (intensity : ℚ)
  | SphereLight (position : Vec3) (color : Color) (intensity : ℚ)
deriving DecidableEq, Repr

/-- Model of the `Light::color` accessor. -/
def Light.color : Light → Color
  | .DirectionalLight _ c _ => c
  | .SphereLight _ c _ => c

/-- Model of `Scene`. -/
structure Scene where
  width : ℕ
  height : ℕ
  fov : ℚ
  aspect_ratio : ℚ
  objects : List Sphere
  lights : List Light
  shadow_bias : ℚ


/-- Model of `Scene::new` (aspect ratio derived from width and height). -/
def Scene.new (width height : ℕ) (fov : ℚ) (objects : List Sphere)
    (lights : List Light) (shadow_bias : ℚ) : Scene :=
  ⟨width, height, fov, (width : ℚ) / (height : ℚ), objects, lights, shadow_bias⟩

/-- Degrees to radians, as `f64::to_radians`. -/
def toRadians (env : FpEnv) (d : ℚ) : ℚ := d * env.piF / 180

/-- Model of `Ray::create_prime`, the camera-ray generator. -/
def Ray.create_prime (env : FpEnv) (x y : ℕ) (s : Scene) : Ray :=
  let fov_adjustment := env.tanF (toRadians env s.fov / 2)
  let sensor_x := (((x : ℚ) + 1/2) / (s.width : ℚ) * 2 - 1) * s.aspect_ratio * fov_adjustment
  let sensor_y := (1 - ((y : ℚ) + 1/2) / (s.height : ℚ) * 2) * fov_adjustment
  ⟨⟨0, 0, 0⟩, vnormalize env ⟨sensor_x, sensor_y, -1⟩⟩

/-- Model of `Collision` (the sphere is held by value; the positional
statements about tie-breaks are made on the collision list itself). -/
structure Collision where
  distance : ℚ
  object : Sphere
deriving DecidableEq, Repr

/-- Total comparison on rationals, exactly the Less/Equal/Greater order
`partial_cmp` yields on non-NaN floats. -/
def qcmp (a b : ℚ) : Ordering :=
  if a < b then .lt else if a = b then .eq else .gt

/-- Model of f64 `partial_cmp` on possibly-NaN operands (`none` = NaN):
`none` exactly when either operand is NaN. -/
def cmpOpt : Option ℚ → Option ℚ → Option Ordering
  | some a, some b => some (qcmp a b)
  | _, _ => none

/-- The comparator closure inside `Scene::trace`:
`x.distance.partial_cmp(&y.distance)`, fed through the NaN-aware model. -/
def collCmp (a b : Collision) : Option Ordering :=
  cmpOpt (some a.distance) (some b.distance)

/-- Inner fold of Rust `Iterator::min_by` (via `reduce` and `cmp::min_by`):
replace the accumulator only on `Greater`, keep it on `Less`/`Equal`; a
`none` comparison models the `.unwrap()` panic as `Except.error`. -/
def minByFoldE (cmp : Collision → Collision → Option Ordering) :
    Collision → List Collision → Except Unit Collision
  | acc, [] => .ok acc
  | acc, x :: xs =>
    match cmp acc x with
    | none => .error ()
    | some .gt => minByFoldE cmp x xs
    | some _ => minByFoldE cmp acc xs

/-- Model of Rust `Iterator::min_by` with a panicking comparator. -/
def minByE (cmp : Collision → Collision → Option Ordering) :
    List Collision → Except Unit (Option Collision)
  | [] => .ok none
  | x :: xs => (minByFoldE cmp x xs).map some

/-- The list built by the `filter_map` inside `Scene::trace`: one collision
per object whose `intersect` hits, in object-list order. -/
def Scene.collList (env : FpEnv) (s : Scene) (r : Ray) : List Collision :=
  s.objects.filterMap (fun o => (Sphere.intersect env o r).map (fun d => ⟨d, o⟩))

/-- Model of `Scene::trace` with its panic branch kept explicit. -/
def Scene.traceE (env : FpEnv) (s : Scene) (r : Ray) : Except Unit (Option Collision) :=
  minByE collCmp (s.collList env r)

/-- Model of `Scene::trace`; the error branch is unreachable (see the
totality theorem) so collapsing it to `none` loses nothing. -/
def Scene.trace (env : FpEnv) (s : Scene) (r : Ray) : Option Collision :=
  match s.traceE env r with
  | .ok o => o
  | .error _ => none

/-- Model of `get_light`: effective intensity and direction to the light. -/
def get_light (env : FpEnv) : Light → Scene → Vec3 → ℚ × Vec3
  | .DirectionalLight direction _ intensity, s, hit_point =>
    let direction_to_light := Vec3.neg direction
    let shadow_ray : Ray :=
      ⟨Vec3.add hit_point (Vec3.smul s.shadow_bias direction_to_light), direction_to_light⟩
    let in_light := (s.trace env shadow_ray).isNone
    let light_intensity := if in_light then intensity else 0
    (light_intensity, direction_to_light)
  | .SphereLight position _ intensity, s, hit_point =>
    let direction_to_light := vnormalize env (Vec3.sub position hit_point)
    let shadow_ray : Ray :=
      ⟨Vec3.add hit_point (Vec3.smul s.shadow_bias direction_to_light), direction_to_light⟩
    let shadow_intersect := s.trace env shadow_ray
    let in_light :=
      match shadow_intersect with
      | none => true
      | some c => decide (magnitude env (Vec3.sub position hit_point) < c.distance)
    let light_intensity :=
      if in_light then
        intensity / (4 * env.piF * magnitude2 (Vec3.sub position hit_point))
      else 0
    (light_intensity, direction_to_light)

/-- Model of `get_color`: trace the primary ray, accumulate the per-light
diffuse and Blinn-Phong specular contributions, clamp at the end. -/
def get_color (env : FpEnv) (s : Scene) (r : Ray) : Color :=
  let base : Color := ⟨0, 0, 0⟩
  let c :=
    match s.trace env r with
    | none => base
    | some coll =>
      let hit_point := Vec3.add r.origin (Vec3.smul coll.distance r.direction)
      let n := Sphere.surface_normal env coll.object hit_point
      s.lights.foldl (fun color light =>
        let res := get_light env light s hit_point
        let light_intensity := res.1
        let direction_to_light := res.2
        let diffuse := max (Vec3.dot n direction_to_light) 0 * light_intensity
        let view_vector := Vec3.neg (vnormalize env r.direction)
        let half_vector := vnormalize env (Vec3.add direction_to_light view_vector)
        let specular :=
          (Vec3.dot n half_vector) ^ (25 : ℕ) * coll.object.kd * light_intensity
        let light_reflected := coll.object.albedo / env.piF
        let light_color :=
          Color.mulS (Color.mulS light.color (diffuse * coll.object.ks)) light_reflected
        Color.addS (Color.addC color (Color.mulC coll.object.color light_color)) specular)
        base
  Color.clamp c

/-! ### Clamp lemmas -/

theorem clampQ_idem (v : ℚ) : clampQ (clampQ v) = clampQ v := by
  unfold clampQ
  split_ifs <;> first | rfl | linarith

theorem clampQ_mem (v : ℚ) : 0 ≤ clampQ v ∧ clampQ v ≤ 1 := by
  unfold clampQ
  split_ifs <;> constructor <;> linarith

theorem clampQ_id (v : ℚ) (h0 : 0 ≤ v) (h1 : v ≤ 1) : clampQ v = v := by
  unfold clampQ
  split_ifs <;> first | rfl | linarith

/-- C6: clamp is idempotent, every channel of the result lies in [0,1],
and a color already within [0,1] on all channels is left unchanged. -/
theorem clamp_spec (c : Color) :
    Color.clamp (Color.clamp c) = Color.clamp c ∧
    (0 ≤ (Color.clamp c).red ∧ (Color.clamp c).red ≤ 1) ∧
    (0 ≤ (Color.clamp c).green ∧ (Color.clamp c).green ≤ 1) ∧
    (0 ≤ (Color.clamp c).blue ∧ (Color.clamp c).blue ≤ 1) ∧
    ((0 ≤ c.red ∧ c.red ≤ 1) ∧ (0 ≤ c.green ∧ c.green ≤ 1) ∧
      (0 ≤ c.blue ∧ c.blue ≤ 1) → Color.clamp c = c) := by
  refine ⟨?_, ?_, ?_, ?_, ?_⟩
  · simp [Color.clamp, clampQ_idem]
  · exact ⟨(clampQ_mem c.red).1, (clampQ_mem c.red).2⟩
  · exact ⟨(clampQ_mem c.green).1, (clampQ_mem c.green).2⟩
  · exact ⟨(clampQ_mem c.blue).1, (clampQ_mem c.blue).2⟩
  · rintro ⟨⟨hr0, hr1⟩, ⟨hg0, hg1⟩, ⟨hb0, hb1⟩⟩
    simp [Color.clamp, clampQ_id _ hr0 hr1, clampQ_id _ hg0 hg1, clampQ_id _ hb0 hb1]

/-- Witness for C6: the in-range color (1/2, 0, 1) passes through clamp
unchanged. -/
theorem clamp_spec_witness : Color.clamp ⟨1/2, 0, 1⟩ = ⟨1/2, 0, 1⟩ :=
  (clamp_spec ⟨1/2, 0, 1⟩).2.2.2.2
    ⟨⟨by norm_num, by norm_num⟩, ⟨by norm_num, by norm_num⟩, ⟨by norm_num, by norm_num⟩⟩

/-! ### to_rgba -/

/-- C3: the assertions in `to_rgba` do NOT reject every out-of-range color:
because the second and third asserts re-test `self.red` instead of green and
blue, the color (1/2, -1/2, 1/2) — whose green channel is strictly outside
[0,1] — passes all three asserts and produces a byte quadruple. -/
theorem to_rgba_negative_green_accepted :
    Color.to_rgba ⟨1/2, -(1/2), 1/2⟩ = some (127, 0, 127, 1) ∧
    ¬ (0 ≤ (Color.mk (1/2) (-(1/2)) (1/2)).green) := by
  constructor
  · simp only [Color.to_rgba, toU8]
    norm_num
    rfl
  · norm_num

/-- C4 counterexample: the code truncates (`as u8`) rather than rounds: on
the all-channels-1/2 color, `to_rgba` produces byte 127 while round of
(1/2)*255 = 127.5 is 128. -/
theorem to_rgba_round_counterexample :
    Color.to_rgba ⟨1/2, 1/2, 1/2⟩ = some (127, 127, 127, 1) ∧
    round ((1/2 : ℚ) * 255) = 128 ∧ (127 : ℕ) ≠ 128 := by
  refine ⟨?_, ?_, by decide⟩
  · simp only [Color.to_rgba, toU8]
    norm_num
    rfl
  · norm_num [round_eq]

theorem toU8_eq_floor (q : ℚ) (h0 : 0 ≤ q) (h255 : q ≤ 255) :
    toU8 q = (⌊q⌋).toNat := by
  unfold toU8
  split_ifs with h1 h2
  · have hq : q = 0 := le_antisymm h1 h0
    simp [hq]
  · have hq : q = 255 := le_antisymm h255 h2
    rw [hq]
    norm_num
    rfl
  · rfl

/-- C4 amended: for a color whose channels all lie in [0,1], `to_rgba`
maps each channel c to the truncation (floor) of c*255 — not its rounding —
as the 8-bit component, with fixed alpha 1. -/
theorem to_rgba_in_range (c : Color)
    (hr : 0 ≤ c.red ∧ c.red ≤ 1) (hg : 0 ≤ c.green ∧ c.green ≤ 1)
    (hb : 0 ≤ c.blue ∧ c.blue ≤ 1) :
    Color.to_rgba c =
      some ((⌊c.red * 255⌋).toNat, (⌊c.green * 255⌋).toNat, (⌊c.blue * 255⌋).toNat, 1) := by
  unfold Color.to_rgba
  rw [if_pos ⟨hr.2, hr.1⟩, if_pos ⟨hg.2, hr.1⟩, if_pos ⟨hb.2, hr.1⟩]
  rw [toU8_eq_floor _ (by linarith [hr.1]) (by linarith [hr.2]),
    toU8_eq_floor _ (by linarith [hg.1]) (by linarith [hg.2]),
    toU8_eq_floor _ (by linarith [hb.1]) (by linarith [hb.2])]

/-- Witness for C4 amended: the color (3/5, 0, 1) converts to bytes
(153, 0, 255, 1). -/
theorem to_rgba_in_range_witness :
    Color.to_rgba ⟨3/5, 0, 1⟩ = some (153, 0, 255, 1) := by
  rw [to_rgba_in_range ⟨3/5, 0, 1⟩ (by norm_num) (by norm_num) (by norm_num)]
  norm_num
  exact ⟨rfl, rfl⟩

/-! ### Sphere intersection -/

/-- The local `adj` of `Sphere::intersect`. -/
def iAdj (sp : Sphere) (r : Ray) : ℚ :=
  Vec3.dot (Vec3.sub sp.center r.origin) r.direction

/-- The local `d` of `Sphere::intersect`: squared distance from the sphere
center to the ray line. -/
def iD (sp : Sphere) (r : Ray) : ℚ :=
  Vec3.dot (Vec3.sub sp.center r.origin) (Vec3.sub sp.center r.origin) -
    iAdj sp r * iAdj sp r

/-- The candidate root `t0` of `Sphere::intersect`. -/
def iT0 (env : FpEnv) (sp : Sphere) (r : Ray) : ℚ :=
  iAdj sp r - env.sqrtF (sp.radius * sp.radius - iD sp r)

/-- The candidate root `t1` of `Sphere::intersect`. -/
def iT1 (env : FpEnv) (sp : Sphere) (r : Ray) : ℚ :=
  iAdj sp r + env.sqrtF (sp.radius * sp.radius - iD sp r)

theorem ite_lt_min (a b : ℚ) : (if a < b then a else b) = min a b := by
  rcases le_or_lt a b with h | h
  · rcases eq_or_lt_of_le h with rfl | hlt
    · simp
    · rw [if_pos hlt, min_eq_left h]
  · rw [if_neg (not_lt.mpr h.le), min_eq_right h.le]

/-- C5: `intersect` returns no hit when the squared orthogonal distance
exceeds the squared radius, no hit when both candidate roots are negative,
and otherwise the smaller of the two roots — with no further sign check, so
a negative smaller root (ray origin inside the sphere) is returned as-is. -/
theorem intersect_spec (env : FpEnv) (sp : Sphere) (r : Ray) :
    (sp.radius * sp.radius < iD sp r → Sphere.intersect env sp r = none) ∧
    (iD sp r ≤ sp.radius * sp.radius → iT0 env sp r < 0 → iT1 env sp r < 0 →
      Sphere.intersect env sp r = none) ∧
    (iD sp r ≤ sp.radius * sp.radius → ¬(iT0 env sp r < 0 ∧ iT1 env sp r < 0) →
      Sphere.intersect env sp r = some (min (iT0 env sp r) (iT1 env sp r))) := by
  unfold Sphere.intersect iT0 iT1 iD iAdj
  dsimp only
  refine ⟨?_, ?_, ?_⟩
  · intro h
    rw [if_pos h]
  · intro hle h0 h1
    rw [if_neg (not_lt.mpr hle), if_pos ⟨h0, h1⟩]
  · intro hle hnot
    rw [if_neg (not_lt.mpr hle), if_neg hnot, ite_lt_min]

/-- Concrete square-root table used by witnesses: correct on 1 and 9. -/
def wEnv : FpEnv := ⟨fun q => if q = 9 then 3 else if q = 1 then 1 else 0, fun _ => 0, 3⟩

/-- A unit sphere 5 units down the -z axis. -/
def wSphereFront : Sphere := ⟨⟨0, 0, -5⟩, 1, ⟨1, 0, 0⟩, 1/2, 1/2, 1/20⟩

/-- The -z axis ray from the origin. -/
def wRayDown : Ray := ⟨⟨0, 0, 0⟩, ⟨0, 0, -1⟩⟩

/-- Witness for C5: the -z ray from the origin hits the unit sphere at
(0,0,-5) at distance 4 = min(4, 6). -/
theorem intersect_spec_witness :
    Sphere.intersect wEnv wSphereFront wRayDown = some 4 := by
  have h := (intersect_spec wEnv wSphereFront wRayDown).2.2
  have hd : iD wSphereFront wRayDown = 0 := by
    norm_num [iD, iAdj, wSphereFront, wRayDown, Vec3.sub, Vec3.dot]
  have ht0 : iT0 wEnv wSphereFront wRayDown = 4 := by
    norm_num [iT0, iD, iAdj, wEnv, wSphereFront, wRayDown, Vec3.sub, Vec3.dot]
  have ht1 : iT1 wEnv wSphereFront wRayDown = 6 := by
    norm_num [iT1, iD, iAdj, wEnv, wSphereFront, wRayDown, Vec3.sub, Vec3.dot]
  rw [h (by rw [hd]; norm_num [wSphereFront]) (by rw [ht0, ht1]; norm_num),
    ht0, ht1]
  norm_num

/-! ### Surface normal -/

theorem dot_smul_smul (k : ℚ) (v : Vec3) :
    Vec3.dot (Vec3.smul k v) (Vec3.smul k v) = k * k * Vec3.dot v v := by
  simp only [Vec3.smul, Vec3.dot]
  ring

/-- C9: when the square root of the squared length of `hit_point - center`
is exact and positive, `surface_normal` is the normalization of
`hit_point - center`, has unit length (its dot with itself is 1), and is a
positive scalar multiple of `hit_point - center`, i.e. points away from the
center. -/
theorem surface_normal_spec (env : FpEnv) (sp : Sphere) (hp : Vec3)
    (hsq : env.sqrtF (magnitude2 (Vec3.sub hp sp.center)) *
        env.sqrtF (magnitude2 (Vec3.sub hp sp.center)) =
        magnitude2 (Vec3.sub hp sp.center))
    (hpos : 0 < env.sqrtF (magnitude2 (Vec3.sub hp sp.center))) :
    Sphere.surface_normal env sp hp = vnormalize env (Vec3.sub hp sp.center) ∧
    Vec3.dot (Sphere.surface_normal env sp hp) (Sphere.surface_normal env sp hp) = 1 ∧
    ∃ k : ℚ, 0 < k ∧
      Sphere.surface_normal env sp hp = Vec3.smul k (Vec3.sub hp sp.center) := by
  have hm : magnitude env (Vec3.sub hp sp.center) =
      env.sqrtF (magnitude2 (Vec3.sub hp sp.center)) := rfl
  refine ⟨rfl, ?_, ?_⟩
  · unfold Sphere.surface_normal vnormalize
    rw [dot_smul_smul, hm]
    rw [show Vec3.dot (Vec3.sub hp sp.center) (Vec3.sub hp sp.center) =
      magnitude2 (Vec3.sub hp sp.center) from rfl]
    set m := env.sqrtF (magnitude2 (Vec3.sub hp sp.center)) with hmdef
    rw [← hsq]
    have hne : m ≠ 0 := ne_of_gt hpos
    field_simp
  · refine ⟨1 / magnitude env (Vec3.sub hp sp.center), ?_, rfl⟩
    rw [hm]
    exact one_div_pos.mpr hpos

/-- A sphere at the origin, used by the surface-normal witness. -/
def wSphereO : Sphere := ⟨⟨0, 0, 0⟩, 3, ⟨1, 1, 1⟩, 1/2, 1/2, 1/20⟩

/-- Witness for C9: at hit point (1,2,2) on the sphere centered at the
origin, the surface normal has unit length. -/
theorem surface_normal_spec_witness :
    Vec3.dot (Sphere.surface_normal wEnv wSphereO ⟨1, 2, 2⟩)
      (Sphere.surface_normal wEnv wSphereO ⟨1, 2, 2⟩) = 1 := by
  have h := surface_normal_spec wEnv wSphereO ⟨1, 2, 2⟩
    (by norm_num [wEnv, wSphereO, magnitude2, Vec3.sub, Vec3.dot])
    (by norm_num [wEnv, wSphereO, magnitude2, Vec3.sub, Vec3.dot])
  exact h.2.1

/-! ### qcmp and min_by lemmas -/

theorem qcmp_lt_of_eq_lt {a b : ℚ} (h : qcmp a b = .lt) : a < b := by
  unfold qcmp at h
  split_ifs at h with h1 h2
  · exact h1

theorem qcmp_eq_of_eq_eq {a b : ℚ} (h : qcmp a b = .eq) : a = b := by
  unfold qcmp at h
  split_ifs at h with h1 h2
  · exact h2

theorem qcmp_gt_of_eq_gt {a b : ℚ} (h : qcmp a b = .gt) : b < a := by
  unfold qcmp at h
  split_ifs at h with h1 h2
  · exact lt_of_le_of_ne (not_lt.mp h1) (Ne.symm h2)

theorem collCmp_eq (a b : Collision) :
    collCmp a b = some (qcmp a.distance b.distance) := rfl

theorem minByFoldE_ok (xs : List Collision) : ∀ acc : Collision,
    ∃ r, minByFoldE collCmp acc xs = .ok r := by
  induction xs with
  | nil => exact fun acc => ⟨acc, rfl⟩
  | cons x xs ih =>
    intro acc
    rw [minByFoldE, collCmp_eq]
    rcases hq : qcmp acc.distance x.distance with _ | _ | _ <;> simp only
    · exact ih acc
    · exact ih acc
    · exact ih x

theorem minByFoldE_first_min (xs : List Collision) : ∀ acc r : Collision,
    minByFoldE collCmp acc xs = .ok r →
    (r = acc ∧ ∀ y ∈ xs, acc.distance ≤ y.distance) ∨
    (∃ l₁ l₂, xs = l₁ ++ r :: l₂ ∧ r.distance < acc.distance ∧
      (∀ y ∈ l₁, r.distance < y.distance) ∧ (∀ y ∈ l₂, r.distance ≤ y.distance)) := by
  induction xs with
  | nil =>
    intro acc r h
    rw [minByFoldE] at h
    left
    have hra : r = acc := (Except.ok.inj h).symm
    refine ⟨hra, ?_⟩
    intro y hy
    cases hy
  | cons x xs ih =>
    intro acc r h
    rw [minByFoldE, collCmp_eq] at h
    rcases hq : qcmp acc.distance x.distance with _ | _ | _ <;> rw [hq] at h <;>
      simp only at h
    · have hax : acc.distance ≤ x.distance := le_of_lt (qcmp_lt_of_eq_lt hq)
      rcases ih acc r h with ⟨rfl, hall⟩ | ⟨l₁, l₂, hxs, hlt, hl1, hl2⟩
      · left
        refine ⟨rfl, ?_⟩
        intro y hy
        rcases List.mem_cons.mp hy with rfl | hy2
        · exact hax
        · exact hall y hy2
      · right
        refine ⟨x :: l₁, l₂, by rw [List.cons_append, hxs], hlt, ?_, hl2⟩
        intro y hy
        rcases List.mem_cons.mp hy with rfl | hy2
        · exact lt_of_lt_of_le hlt hax
        · exact hl1 y hy2
    · have hax : acc.distance ≤ x.distance := le_of_eq (qcmp_eq_of_eq_eq hq)
      rcases ih acc r h with ⟨rfl, hall⟩ | ⟨l₁, l₂, hxs, hlt, hl1, hl2⟩
      · left
        refine ⟨rfl, ?_⟩
        intro y hy
        rcases List.mem_cons.mp hy with rfl | hy2
        · exact hax
        · exact hall y hy2
      · right
        refine ⟨x :: l₁, l₂, by rw [List.cons_append, hxs], hlt, ?_, hl2⟩
        intro y hy
        rcases List.mem_cons.mp hy with rfl | hy2
        · exact lt_of_lt_of_le hlt hax
        · exact hl1 y hy2
    · have hxa : x.distance < acc.distance := qcmp_gt_of_eq_gt hq
      rcases ih x r h with ⟨rfl, hall⟩ | ⟨l₁, l₂, hxs, hlt, hl1, hl2⟩
      · right
        exact ⟨[], xs, rfl, hxa, fun y hy => absurd hy (List.not_mem_nil y), hall⟩
      · right
        refine ⟨x :: l₁, l₂, by rw [List.cons_append, hxs], lt_trans hlt hxa, ?_, hl2⟩
        intro y hy
        rcases List.mem_cons.mp hy with rfl | hy2
        · exact hlt
        · exact hl1 y hy2

theorem trace_eq_of_traceE (env : FpEnv) (s : Scene) (r : Ray)
    (o : Option Collision) (h : Scene.traceE env s r = .ok o) :
    Scene.trace env s r = o := by
  unfold Scene.trace
  rw [h]

theorem traceE_of_collList_nil (env : FpEnv) (s : Scene) (r : Ray)
    (h : Scene.collList env s r = []) : Scene.traceE env s r = .ok none := by
  unfold Scene.traceE
  rw [h]
  rfl

theorem traceE_of_collList_cons (env : FpEnv) (s : Scene) (r : Ray)
    (x : Collision) (xs : List Collision) (h : Scene.collList env s r = x :: xs) :
    Scene.traceE env s r = (minByFoldE collCmp x xs).map some := by
  unfold Scene.traceE
  rw [h]
  rfl

/-- C10: the comparator of `Scene::trace` never returns the `none` that
would make the `unwrap` panic — every distance in the model is a non-NaN
rational — and consequently `traceE` always lands in the `ok` branch:
`trace` is total. -/
theorem trace_total (env : FpEnv) (s : Scene) (r : Ray) :
    (∀ a b : Collision, collCmp a b ≠ none) ∧
    Scene.traceE env s r = Except.ok (Scene.trace env s r) := by
  constructor
  · intro a b
    rw [collCmp_eq]
    exact Option.some_ne_none _
  · rcases hl : Scene.collList env s r with _ | ⟨x, xs⟩
    · rw [traceE_of_collList_nil env s r hl,
        trace_eq_of_traceE env s r none (traceE_of_collList_nil env s r hl)]
    · obtain ⟨m, hm⟩ := minByFoldE_ok xs x
      have hE : Scene.traceE env s r = .ok (some m) := by
        rw [traceE_of_collList_cons env s r x xs hl, hm]
        rfl
      rw [hE, trace_eq_of_traceE env s r (some m) hE]

/-- C2: `trace` returns no hit exactly when no object intersects the ray
(in particular when the object list is empty); otherwise it returns a
collision of minimal distance, and among equal minimal distances the one of
the first such object in the scene's object-list order. -/
theorem trace_spec (env : FpEnv) (s : Scene) (r : Ray) :
    (Scene.trace env s r = none ↔ Scene.collList env s r = []) ∧
    ∀ c, Scene.trace env s r = some c →
      (∀ y ∈ Scene.collList env s r, c.distance ≤ y.distance) ∧
      ∃ l₁ l₂, Scene.collList env s r = l₁ ++ c :: l₂ ∧
        ∀ y ∈ l₁, c.distance < y.distance := by
  rcases hl : Scene.collList env s r with _ | ⟨x, xs⟩
  · have ht : Scene.trace env s r = none :=
      trace_eq_of_traceE env s r none (traceE_of_collList_nil env s r hl)
    constructor
    · rw [ht]
      simp
    · intro c hc
      rw [ht] at hc
      cases hc
  · obtain ⟨m, hm⟩ := minByFoldE_ok xs x
    have hE : Scene.traceE env s r = .ok (some m) := by
      rw [traceE_of_collList_cons env s r x xs hl, hm]
      rfl
    have ht : Scene.trace env s r = some m := trace_eq_of_traceE env s r (some m) hE
    constructor
    · rw [ht]
      constructor
      · intro h
        cases h
      · intro h
        cases h
    · intro c hc
      rw [ht] at hc
      have hcm : c = m := (Option.some.inj hc).symm
      subst hcm
      rcases minByFoldE_first_min xs x c hm with ⟨rfl, hall⟩ | ⟨l₁, l₂, hxs, hlt, hl1, hl2⟩
      · constructor
        · intro y hy
          rcases List.mem_cons.mp hy with rfl | hy2
          · exact le_refl _
          · exact hall y hy2
        · exact ⟨[], xs, rfl, fun y hy => absurd hy (List.not_mem_nil y)⟩
      · constructor
        · intro y hy
          rcases List.mem_cons.mp hy with rfl | hy2
          · exact le_of_lt hlt
          · rw [hxs] at hy2
            rcases List.mem_append.mp hy2 with h1 | h2
            · exact le_of_lt (hl1 y h1)
            · rcases List.mem_cons.mp h2 with rfl | h3
              · exact le_refl _
              · exact hl2 y h3
        · refine ⟨x :: l₁, l₂, ?_, ?_⟩
          · rw [hxs, List.cons_append]
          · intro y hy
            rcases List.mem_cons.mp hy with rfl | hy2
            · exact hlt
            · exact hl1 y hy2

/-- A second unit sphere coincident with `wSphereFront` but green, to force
an exact distance tie. -/
def wSphereTie : Sphere := ⟨⟨0, 0, -5⟩, 1, ⟨0, 1, 0⟩, 1/2, 1/2, 1/20⟩

/-- A scene with two coincident spheres, for the tie-break witness. -/
def wTieScene : Scene := ⟨8, 8, 90, 1, [wSphereFront, wSphereTie], [], 0⟩

theorem intersect_front : Sphere.intersect wEnv wSphereFront wRayDown = some 4 := by
  simp only [Sphere.intersect, Vec3.sub, Vec3.dot, wEnv, wSphereFront, wRayDown]
  norm_num

theorem intersect_tie : Sphere.intersect wEnv wSphereTie wRayDown = some 4 := by
  simp only [Sphere.intersect, Vec3.sub, Vec3.dot, wEnv, wSphereTie, wRayDown]
  norm_num

theorem collList_tie : Scene.collList wEnv wTieScene wRayDown =
    [⟨4, wSphereFront⟩, ⟨4, wSphereTie⟩] := by
  simp only [Scene.collList, wTieScene, List.filterMap_cons, List.filterMap_nil,
    intersect_front, intersect_tie, Option.map_some]
  rfl

theorem trace_tie : Scene.trace wEnv wTieScene wRayDown = some ⟨4, wSphereFront⟩ := by
  have hq : qcmp (4 : ℚ) 4 = .eq := by
    unfold qcmp
    norm_num
  have hfold : minByFoldE collCmp ⟨4, wSphereFront⟩ [⟨4, wSphereTie⟩] =
      .ok ⟨4, wSphereFront⟩ := by
    rw [minByFoldE, collCmp_eq]
    show (match some (qcmp (4:ℚ) 4) with
      | none => Except.error ()
      | some .gt => minByFoldE collCmp ⟨4, wSphereTie⟩ []
      | some _ => minByFoldE collCmp ⟨4, wSphereFront⟩ []) = .ok ⟨4, wSphereFront⟩
    rw [hq]
    rfl
  exact trace_eq_of_traceE wEnv wTieScene wRayDown _ (by
    rw [traceE_of_collList_cons wEnv wTieScene wRayDown _ _ collList_tie, hfold]
    rfl)

/-- Witness for C2: in the two-coincident-spheres scene both objects hit at
distance 4, and `trace` picks the first one in list order. -/
theorem trace_spec_witness :
    ∃ l₁ l₂, Scene.collList wEnv wTieScene wRayDown =
      l₁ ++ (⟨4, wSphereFront⟩ : Collision) :: l₂ ∧
      ∀ y ∈ l₁, (4 : ℚ) < y.distance := by
  have h := (trace_spec wEnv wTieScene wRayDown).2 ⟨4, wSphereFront⟩ trace_tie
  exact h.2

/-! ### Lighting -/

/-- C7: for a directional light, any shadow-ray hit forces the effective
intensity to 0, and no hit yields exactly the full intensity with no
distance attenuation; the returned direction is the negated light
direction. -/
theorem directional_light_spec (env : FpEnv) (s : Scene) (hp direction : Vec3)
    (col : Color) (intensity : ℚ) :
    (Scene.trace env s
        ⟨Vec3.add hp (Vec3.smul s.shadow_bias (Vec3.neg direction)),
          Vec3.neg direction⟩ ≠ none →
      get_light env (Light.DirectionalLight direction col intensity) s hp =
        (0, Vec3.neg direction)) ∧
    (Scene.trace env s
        ⟨Vec3.add hp (Vec3.smul s.shadow_bias (Vec3.neg direction)),
          Vec3.neg direction⟩ = none →
      get_light env (Light.DirectionalLight direction col intensity) s hp =
        (intensity, Vec3.neg direction)) := by
  constructor
  · intro h
    obtain ⟨c, hc⟩ := Option.ne_none_iff_exists'.mp h
    simp [get_light, hc]
  · intro h
    simp [get_light, h]

/-- A scene with no objects and one directional light. -/
def wEmptyScene : Scene :=
  ⟨8, 8, 90, 1, [], [Light.DirectionalLight ⟨0, 0, 1⟩ ⟨1, 1, 1⟩ 10], 0⟩

/-- Witness for C7: with no objects the shadow ray misses and the full
intensity 10 is returned. -/
theorem directional_light_spec_witness :
    get_light wEnv (Light.DirectionalLight ⟨0, 0, 1⟩ ⟨1, 1, 1⟩ 10) wEmptyScene ⟨0, 0, 0⟩ =
      (10, Vec3.neg ⟨0, 0, 1⟩) := by
  have htr : Scene.trace wEnv wEmptyScene
      ⟨Vec3.add ⟨0, 0, 0⟩ (Vec3.smul wEmptyScene.shadow_bias (Vec3.neg ⟨0, 0, 1⟩)),
        Vec3.neg ⟨0, 0, 1⟩⟩ = none :=
    trace_eq_of_traceE _ _ _ none (traceE_of_collList_nil _ _ _ rfl)
  exact (directional_light_spec wEnv wEmptyScene ⟨0, 0, 0⟩ ⟨0, 0, 1⟩ ⟨1, 1, 1⟩ 10).2 htr

/-- C1 amended: for a point/sphere light, a shadow-ray hit occludes the
light (effective intensity 0) if and only if its distance is less than OR
EQUAL to the distance from hit point to the light position; only a hit
strictly beyond the light leaves it unoccluded, in which case the intensity
is the inverse-square falloff value. -/
theorem sphere_light_spec (env : FpEnv) (s : Scene) (hp position : Vec3)
    (col : Color) (intensity : ℚ) :
    ((∃ c, Scene.trace env s
          ⟨Vec3.add hp (Vec3.smul s.shadow_bias (vnormalize env (Vec3.sub position hp))),
            vnormalize env (Vec3.sub position hp)⟩ = some c ∧
          c.distance ≤ magnitude env (Vec3.sub position hp)) →
      get_light env (Light.SphereLight position col intensity) s hp =
        (0, vnormalize env (Vec3.sub position hp))) ∧
    ((∀ c, Scene.trace env s
          ⟨Vec3.add hp (Vec3.smul s.shadow_bias (vnormalize env (Vec3.sub position hp))),
            vnormalize env (Vec3.sub position hp)⟩ = some c →
          magnitude env (Vec3.sub position hp) < c.distance) →
      get_light env (Light.SphereLight position col intensity) s hp =
        (intensity / (4 * env.piF * magnitude2 (Vec3.sub position hp)),
          vnormalize env (Vec3.sub position hp))) := by
  constructor
  · rintro ⟨c, hc, hle⟩
    simp [get_light, hc, not_lt.mpr hle]
  · intro h
    rcases htr : Scene.trace env s
        ⟨Vec3.add hp (Vec3.smul s.shadow_bias (vnormalize env (Vec3.sub position hp))),
          vnormalize env (Vec3.sub position hp)⟩ with _ | c
    · simp [get_light, htr]
    · simp [get_light, htr, h c htr]

/-- An occluding unit sphere centered at (0,0,4): the shadow ray from the
origin toward (0,0,3) hits it at distance exactly 3. -/
def cexSphere : Sphere := ⟨⟨0, 0, 4⟩, 1, ⟨1, 1, 1⟩, 1/2, 1/2, 1/20⟩

/-- The scene holding only `cexSphere`, with zero shadow bias. -/
def cexScene : Scene := ⟨8, 8, 90, 1, [cexSphere], [], 0⟩

theorem cex_dir : vnormalize wEnv (Vec3.sub ⟨0, 0, 3⟩ ⟨0, 0, 0⟩) = ⟨0, 0, 1⟩ := by
  simp only [vnormalize, magnitude, magnitude2, Vec3.sub, Vec3.dot, Vec3.smul, wEnv]
  norm_num

theorem cex_ray :
    (⟨Vec3.add ⟨0, 0, 0⟩ (Vec3.smul cexScene.shadow_bias
        (vnormalize wEnv (Vec3.sub ⟨0, 0, 3⟩ ⟨0, 0, 0⟩))),
      vnormalize wEnv (Vec3.sub ⟨0, 0, 3⟩ ⟨0, 0, 0⟩)⟩ : Ray) =
    ⟨⟨0, 0, 0⟩, ⟨0, 0, 1⟩⟩ := by
  rw [cex_dir]
  simp only [cexScene, Vec3.add, Vec3.smul]
  norm_num

theorem cex_intersect :
    Sphere.intersect wEnv cexSphere ⟨⟨0, 0, 0⟩, ⟨0, 0, 1⟩⟩ = some 3 := by
  simp only [Sphere.intersect, Vec3.sub, Vec3.dot, wEnv, cexSphere]
  norm_num

theorem cex_collList : Scene.collList wEnv cexScene ⟨⟨0, 0, 0⟩, ⟨0, 0, 1⟩⟩ =
    [⟨3, cexSphere⟩] := by
  simp only [Scene.collList, cexScene, List.filterMap_cons, List.filterMap_nil,
    cex_intersect, Option.map_some]
  rfl

theorem cex_trace : Scene.trace wEnv cexScene ⟨⟨0, 0, 0⟩, ⟨0, 0, 1⟩⟩ =
    some ⟨3, cexSphere⟩ :=
  trace_eq_of_traceE _ _ _ _ (by
    rw [traceE_of_collList_cons _ _ _ _ _ cex_collList]
    rfl)

theorem cex_mag : magnitude wEnv (Vec3.sub ⟨0, 0, 3⟩ ⟨0, 0, 0⟩) = 3 := by
  simp only [magnitude, magnitude2, Vec3.sub, Vec3.dot, wEnv]
  norm_num

/-- Witness for C1 amended: in the concrete scene the only shadow-ray hit
is at distance 3 = the distance to the light, and the effective intensity
is 0 (the light is occluded at exact equality). -/
theorem sphere_light_spec_witness :
    get_light wEnv (Light.SphereLight ⟨0, 0, 3⟩ ⟨1, 1, 1⟩ 1) cexScene ⟨0, 0, 0⟩ =
      (0, vnormalize wEnv (Vec3.sub ⟨0, 0, 3⟩ ⟨0, 0, 0⟩)) :=
  (sphere_light_spec wEnv cexScene ⟨0, 0, 0⟩ ⟨0, 0, 3⟩ ⟨1, 1, 1⟩ 1).1
    ⟨⟨3, cexSphere⟩, by rw [cex_ray]; exact cex_trace, by rw [cex_mag]⟩

/-- C1 counterexample: the claim says a hit at distance greater than OR
EQUAL to the distance to the light leaves the light unoccluded, but at
exact equality (hit distance 3, light distance 3) the code yields effective
intensity 0, although the unoccluded inverse-square value would be
nonzero. -/
theorem sphere_light_eq_distance_occludes :
    Scene.trace wEnv cexScene ⟨⟨0, 0, 0⟩, ⟨0, 0, 1⟩⟩ = some ⟨3, cexSphere⟩ ∧
    magnitude wEnv (Vec3.sub ⟨0, 0, 3⟩ ⟨0, 0, 0⟩) = 3 ∧
    ¬ ((3 : ℚ) < 3) ∧
    (get_light wEnv (Light.SphereLight ⟨0, 0, 3⟩ ⟨1, 1, 1⟩ 1) cexScene ⟨0, 0, 0⟩).1 = 0 ∧
    (1 : ℚ) / (4 * wEnv.piF * magnitude2 (Vec3.sub ⟨0, 0, 3⟩ ⟨0, 0, 0⟩)) ≠ 0 := by
  refine ⟨cex_trace, cex_mag, by norm_num, ?_, ?_⟩
  · have h := cex_ray ▸ cex_trace
    simp [get_light, h, cex_mag]
  · simp only [magnitude2, Vec3.sub, Vec3.dot, wEnv]
    norm_num

/-! ### get_color -/

/-- C8: when the primary ray finds no intersection `get_color` is black
(0,0,0); in particular in a scene with an empty object list every pixel's
camera ray yields black, whatever the lights are. -/
theorem get_color_black (env : FpEnv) (s : Scene) (r : Ray) :
    (Scene.trace env s r = none → get_color env s r = ⟨0, 0, 0⟩) ∧
    (s.objects = [] → ∀ x y : ℕ,
      get_color env s (Ray.create_prime env x y s) = ⟨0, 0, 0⟩) := by
  have hbase : ∀ r' : Ray, Scene.trace env s r' = none →
      get_color env s r' = ⟨0, 0, 0⟩ := by
    intro r' h
    unfold get_color
    rw [h]
    norm_num [Color.clamp, clampQ]
  constructor
  · exact hbase r
  · intro hobj x y
    have hcoll : Scene.collList env s (Ray.create_prime env x y s) = [] := by
      unfold Scene.collList
      rw [hobj]
      rfl
    exact hbase _ (trace_eq_of_traceE _ _ _ none (traceE_of_collList_nil _ _ _ hcoll))

/-- Witness for C8: the object-free scene renders pixel (0,0) black. -/
theorem get_color_black_witness :
    get_color wEnv wEmptyScene (Ray.create_prime wEnv 0 0 wEmptyScene) = ⟨0, 0, 0⟩ :=
  (get_color_black wEnv wEmptyScene (Ray.create_prime wEnv 0 0 wEmptyScene)).2 rfl 0 0
